import Mathlib

/-!
Verification of the `vintage` Classic-protocol server (Rust) against its
natural-language specification.  The Rust sources are shallowly embedded:

* machine integers are modelled as `Nat`/`Int` with explicit `% 2 ^ 32`
  where `u32` wrap-around matters;
* Rust `f32` values are modelled as exact rationals (`ℚ`); the only float
  comparison in scope, `Vec3::distance(a, b) < threshold`, is modelled as
  `distSq a b < threshold ^ 2` (square root is monotone and both `3.0` and
  `9.0` are exactly representable, so the branch taken agrees with `f32`);
* fallible Rust code (`Result`, slice-index panics, `unwrap`) is modelled
  with `Option`, `none` standing for the panic / error path;
* the gzip layer comes from the external `flate2` crate, so
  `BlockWorld::serialise` / `deserialise` are modelled on the decompressed
  byte stream (i32 big-endian count followed by the block bytes);
* ECS (`evenio`) component lookups are modelled by passing the fetched
  records to the handler directly.
-/

set_option maxRecDepth 8000

namespace Vintage

/-- The 50 block variants of `world.rs`, discriminants 0..=49. -/
inductive Block where
  | Air
  | Stone
  | GrassBlock
  | Dirt
  | Cobblestone
  | Planks
  | Sapling
  | Bedrock
  | FlowingWater
  | StationaryWater
  | FlowingLava
  | StationaryLava
  | Sand
  | Gravel
  | GoldOre
  | IronOre
  | CoalOre
  | Woord
  | Leaves
  | Sponge
  | Glass
  | RedCloth
  | OrangeCloth
  | YellowCloth
  | ChartreuseCloth
  | GreenCloth
  | SpringGreenCloth
  | CyanCloth
  | CapriCloth
  | UltramarineCloth
  | PurpleCloth
  | VioletCloth
  | MagentaCloth
  | RoseCloth
  | DarkGreyCloth
  | LightGreyCloth
  | WhiteCloth
  | Flower
  | Rose
  | BrownMushroom
  | RedMushroom
  | BlockOfGold
  | BlockOfIron
  | DoubleSlab
  | Slab
  | Bricks
  | TNT
  | Bookshelf
  | MossyCobbleStone
  | Obsidian
deriving DecidableEq, Repr

/-- The numeric discriminant of a block (`block as u8` in the source). -/
def Block.toU8 : Block → Nat
  | .Air => 0
  | .Stone => 1
  | .GrassBlock => 2
  | .Dirt => 3
  | .Cobblestone => 4
  | .Planks => 5
  | .Sapling => 6
  | .Bedrock => 7
  | .FlowingWater => 8
  | .StationaryWater => 9
  | .FlowingLava => 10
  | .StationaryLava => 11
  | .Sand => 12
  | .Gravel => 13
  | .GoldOre => 14
  | .IronOre => 15
  | .CoalOre => 16
  | .Woord => 17
  | .Leaves => 18
  | .Sponge => 19
  | .Glass => 20
  | .RedCloth => 21
  | .OrangeCloth => 22
  | .YellowCloth => 23
  | .ChartreuseCloth => 24
  | .GreenCloth => 25
  | .SpringGreenCloth => 26
  | .CyanCloth => 27
  | .CapriCloth => 28
  | .UltramarineCloth => 29
  | .PurpleCloth => 30
  | .VioletCloth => 31
  | .MagentaCloth => 32
  | .RoseCloth => 33
  | .DarkGreyCloth => 34
  | .LightGreyCloth => 35
  | .WhiteCloth => 36
  | .Flower => 37
  | .Rose => 38
  | .BrownMushroom => 39
  | .RedMushroom => 40
  | .BlockOfGold => 41
  | .BlockOfIron => 42
  | .DoubleSlab => 43
  | .Slab => 44
  | .Bricks => 45
  | .TNT => 46
  | .Bookshelf => 47
  | .MossyCobbleStone => 48
  | .Obsidian => 49

/-- `Block::from_u8` of the `enum_from_primitive!` macro: the inverse of the
discriminant map, `none` outside 0..=49. -/
def Block.from_u8 (n : Nat) : Option Block :=
  if n = 0 then some .Air
  else if n = 1 then some .Stone
  else if n = 2 then some .GrassBlock
  else if n = 3 then some .Dirt
  else if n = 4 then some .Cobblestone
  else if n = 5 then some .Planks
  else if n = 6 then some .Sapling
  else if n = 7 then some .Bedrock
  else if n = 8 then some .FlowingWater
  else if n = 9 then some .StationaryWater
  else if n = 10 then some .FlowingLava
  else if n = 11 then some .StationaryLava
  else if n = 12 then some .Sand
  else if n = 13 then some .Gravel
  else if n = 14 then some .GoldOre
  else if n = 15 then some .IronOre
  else if n = 16 then some .CoalOre
  else if n = 17 then some .Woord
  else if n = 18 then some .Leaves
  else if n = 19 then some .Sponge
  else if n = 20 then some .Glass
  else if n = 21 then some .RedCloth
  else if n = 22 then some .OrangeCloth
  else if n = 23 then some .YellowCloth
  else if n = 24 then some .ChartreuseCloth
  else if n = 25 then some .GreenCloth
  else if n = 26 then some .SpringGreenCloth
  else if n = 27 then some .CyanCloth
  else if n = 28 then some .CapriCloth
  else if n = 29 then some .UltramarineCloth
  else if n = 30 then some .PurpleCloth
  else if n = 31 then some .VioletCloth
  else if n = 32 then some .MagentaCloth
  else if n = 33 then some .RoseCloth
  else if n = 34 then some .DarkGreyCloth
  else if n = 35 then some .LightGreyCloth
  else if n = 36 then some .WhiteCloth
  else if n = 37 then some .Flower
  else if n = 38 then some .Rose
  else if n = 39 then some .BrownMushroom
  else if n = 40 then some .RedMushroom
  else if n = 41 then some .BlockOfGold
  else if n = 42 then some .BlockOfIron
  else if n = 43 then some .DoubleSlab
  else if n = 44 then some .Slab
  else if n = 45 then some .Bricks
  else if n = 46 then some .TNT
  else if n = 47 then some .Bookshelf
  else if n = 48 then some .MossyCobbleStone
  else if n = 49 then some .Obsidian
  else none

/-- A `glam::UVec3`: coordinates are `u32` values, modelled as `Nat`. -/
structure UVec3 where
  x : Nat
  y : Nat
  z : Nat
deriving DecidableEq, Repr

/-- `BlockWorld` of `world.rs`: dimensions plus the dense flat block array. -/
structure BlockWorld where
  dimensions : UVec3
  blocks : List Block
deriving DecidableEq, Repr

/-- `BlockWorld::dims`. -/
def BlockWorld.dims (w : BlockWorld) : UVec3 := w.dimensions

/-- `BlockWorld::pos_to_index`:
`(pos.x + pos.z * dims.z + pos.y * dims.x * dims.z) as usize`, computed in
`u32` arithmetic (release-mode wrap-around, hence the `% 2 ^ 32`). -/
def BlockWorld.pos_to_index (w : BlockWorld) (pos : UVec3) : Nat :=
  (pos.x + pos.z * w.dims.z + pos.y * w.dims.x * w.dims.z) % 2 ^ 32

/-- `BlockWorld::new` before the generator callback runs: `vec![Block::Air; x*y*z]`.
The generator itself only issues `set_block` calls, modelled separately. -/
def BlockWorld.new (dimensions : UVec3) : BlockWorld :=
  { dimensions, blocks := List.replicate (dimensions.x * dimensions.y * dimensions.z) .Air }

/-- `BlockWorld::get_block`: `self.blocks[self.pos_to_index(pos)]`; `none`
models the out-of-bounds index panic. -/
def BlockWorld.get_block (w : BlockWorld) (pos : UVec3) : Option Block :=
  w.blocks.get? (w.pos_to_index pos)

/-- `BlockWorld::set_block`: `self.blocks[index] = block`; `none` models the
out-of-bounds index panic. -/
def BlockWorld.set_block (w : BlockWorld) (pos : UVec3) (block : Block) : Option BlockWorld :=
  let index := w.pos_to_index pos
  if index < w.blocks.length then
    some { w with blocks := w.blocks.set index block }
  else
    none

/-- Big-endian bytes of an `i32` written by `write_i32::<BigEndian>`
(argument already reduced mod `2 ^ 32`). -/
def int32BE (n : Nat) : List Nat :=
  [n / 2 ^ 24 % 256, n / 2 ^ 16 % 256, n / 2 ^ 8 % 256, n % 256]

/-- The decompressed stream produced by `BlockWorld::serialise` (the gzip
layer of `flate2` is external): `blocks.len() as i32` big-endian, then one
discriminant byte per block in index order. -/
def BlockWorld.serialise_payload (w : BlockWorld) : List Nat :=
  int32BE (w.blocks.length % 2 ^ 32) ++ w.blocks.map Block.toU8

/-- `read_i32::<BigEndian>` on a byte stream: `none` on a short read. -/
def read_i32_be : List Nat → Option (Nat × List Nat)
  | b0 :: b1 :: b2 :: b3 :: rest => some (((b0 * 256 + b1) * 256 + b2) * 256 + b3, rest)
  | _ => none

/-- `BlockWorld::deserialise` on the decompressed stream: read the declared
i32 count, `read_to_end` the remaining bytes, reject when the declared count
(cast to `u32`) differs from `x*y*z`, then map `Block::from_u8(..).unwrap()`
over the bytes (`none` models the panic on an invalid id).  Note: the number
of data bytes actually read is never compared with the declared count. -/
def BlockWorld.deserialise (data : List Nat) (dimensions : UVec3) : Option BlockWorld :=
  match read_i32_be data with
  | none => none
  | some (block_amount, buffer) =>
    if block_amount ≠ dimensions.x * dimensions.y * dimensions.z % 2 ^ 32 then
      none
    else
      (buffer.mapM Block.from_u8).map (fun blocks => { dimensions, blocks })

/-- `PlayerIdAllocator` of `world.rs`: 127 slots, each optionally holding an
`EntityId` (modelled as `Nat`). -/
structure PlayerIdAllocator where
  occupation : List (Option Nat)
deriving DecidableEq, Repr

/-- `PlayerIdAllocator::new_empty`. -/
def PlayerIdAllocator.new_empty : PlayerIdAllocator :=
  { occupation := List.replicate 127 none }

/-- The scan loop of `PlayerIdAllocator::alloc`: first empty slot is filled
and its index returned; `none` models the `panic!("No more player ids
available")` when every slot is occupied. -/
def allocScan (entity_id : Nat) : List (Option Nat) → Option (Nat × List (Option Nat))
  | [] => none
  | none :: rest => some (0, some entity_id :: rest)
  | some h :: rest =>
    (allocScan entity_id rest).map (fun r => (r.1 + 1, some h :: r.2))

/-- `PlayerIdAllocator::alloc`. -/
def PlayerIdAllocator.alloc (a : PlayerIdAllocator) (entity_id : Nat) :
    Option (Nat × PlayerIdAllocator) :=
  (allocScan entity_id a.occupation).map (fun r => (r.1, { occupation := r.2 }))

/-- `PlayerIdAllocator::free`: `self.occupation[id as usize] = None`; `none`
models the index panic for an id outside the table. -/
def PlayerIdAllocator.free (a : PlayerIdAllocator) (id : Nat) : Option PlayerIdAllocator :=
  if id < a.occupation.length then
    some { occupation := a.occupation.set id none }
  else
    none

/-- `PlayerIdAllocator::get_player_id`: linear scan for the entity handle. -/
def PlayerIdAllocator.get_player_id (a : PlayerIdAllocator) (entity_id : Nat) : Option Nat :=
  (a.occupation.indexOf? (some entity_id))

/-- Folding `alloc` over a list of entity handles (models a sequence of
joins); `none` as soon as one allocation panics. -/
def allocAll (a : PlayerIdAllocator) : List Nat → Option PlayerIdAllocator
  | [] => some a
  | e :: rest => match a.alloc e with
    | none => none
    | some r => allocAll r.2 rest

/-! ## Fixed-point numerics and angles (`networking/mod.rs`, `networking/util.rs`) -/

/-- A `glam::Vec3` of `f32` coordinates, modelled as exact rationals. -/
structure Vec3 where
  x : ℚ
  y : ℚ
  z : ℚ
deriving DecidableEq, Repr

/-- Componentwise difference, `pos2 - pos1`. -/
def Vec3.sub (a b : Vec3) : Vec3 :=
  { x := a.x - b.x, y := a.y - b.y, z := a.z - b.z }

/-- Squared euclidean distance.  `Vec3::distance(a, b) < t` in the source is
modelled as `distSq a b < t ^ 2` (monotone square root, and the threshold
`3.0` and its square are exactly representable in `f32`). -/
def Vec3.distSq (a b : Vec3) : ℚ :=
  (a.x - b.x) ^ 2 + (a.y - b.y) ^ 2 + (a.z - b.z) ^ 2

/-- `Rotation` of `world.rs`; its `PartialEq` is exact componentwise
equality. -/
structure Rotation where
  pitch : ℚ
  yaw : ℚ
deriving DecidableEq, Repr

/-- Rust float-to-integer `as` cast: truncation toward zero (the numerator
of a reduced rational T-divided by its denominator). -/
def truncQ (q : ℚ) : Int :=
  q.num.tdiv (q.den : Int)

/-- Saturation applied by a Rust float-to-integer `as` cast. -/
def saturate (lo hi v : Int) : Int :=
  max lo (min hi v)

/-- `FShort::from(f32)`: `(value * 2f32.powf(5.)) as i16`. -/
def FShort.from_f32 (value : ℚ) : Int :=
  saturate (-32768) 32767 (truncQ (value * 32))

/-- `FByte::from(f32)`: `(value * 2f32.powf(5.)) as i8`. -/
def FByte.from_f32 (value : ℚ) : Int :=
  saturate (-128) 127 (truncQ (value * 32))

/-- The exact rational value of `std::f32::consts::TAU`
(bit pattern `0x40C90FDB`). -/
def TAU : ℚ := 13175803 / 2097152

/-- `to_angle_byte` of `networking/util.rs`: `(n / TAU * 255.) as u8`. -/
def to_angle_byte (n : ℚ) : Nat :=
  (saturate 0 255 (truncQ (n / TAU * 255))).toNat

/-- `u32 as i16` truncating cast (used for the world dimensions and block
coordinates in outbound packets). -/
def u32_as_i16 (n : Nat) : Int :=
  let r : Nat := n % 2 ^ 16
  if r < 2 ^ 15 then (r : Int) else (r : Int) - 2 ^ 16

/-! ## PacketString (`networking/mod.rs`) -/

/-- Standard UTF-8 encoding of one scalar value (Rust `str::as_bytes`,
external to the repository, modelled from the UTF-8 standard). -/
def utf8EncodeChar (c : Char) : List Nat :=
  let v := c.toNat
  if v < 0x80 then [v]
  else if v < 0x800 then [0xC0 + v / 64, 0x80 + v % 64]
  else if v < 0x10000 then [0xE0 + v / 4096, 0x80 + v / 64 % 64, 0x80 + v % 64]
  else [0xF0 + v / 262144, 0x80 + v / 4096 % 64, 0x80 + v / 64 % 64, 0x80 + v % 64]

/-- UTF-8 encoding of a string (as its list of characters). -/
def utf8Encode (s : List Char) : List Nat :=
  (s.map utf8EncodeChar).flatten

/-- Validating UTF-8 decoder (Rust `String::from_utf8`, external to the
repository, modelled from the UTF-8 standard: continuation ranges exclude
overlong forms, surrogates and values above `U+10FFFF`). -/
def utf8Decode : List Nat → Option (List Char)
  | [] => some []
  | b :: rest =>
    if b < 0x80 then
      (utf8Decode rest).map (fun cs => Char.ofNat b :: cs)
    else
      match rest with
      | [] => none
      | c1 :: rest1 =>
        if 0xC2 ≤ b ∧ b ≤ 0xDF then
          if 0x80 ≤ c1 ∧ c1 ≤ 0xBF then
            (utf8Decode rest1).map (fun cs => Char.ofNat ((b - 0xC0) * 64 + (c1 - 0x80)) :: cs)
          else none
        else
          match rest1 with
          | [] => none
          | c2 :: rest2 =>
            if 0xE0 ≤ b ∧ b ≤ 0xEF then
              if (if b = 0xE0 then 0xA0 ≤ c1 ∧ c1 ≤ 0xBF
                  else if b = 0xED then 0x80 ≤ c1 ∧ c1 ≤ 0x9F
                  else 0x80 ≤ c1 ∧ c1 ≤ 0xBF) ∧ 0x80 ≤ c2 ∧ c2 ≤ 0xBF then
                (utf8Decode rest2).map (fun cs =>
                  Char.ofNat (((b - 0xE0) * 64 + (c1 - 0x80)) * 64 + (c2 - 0x80)) :: cs)
              else none
            else
              match rest2 with
              | [] => none
              | c3 :: rest3 =>
                if 0xF0 ≤ b ∧ b ≤ 0xF4 then
                  if (if b = 0xF0 then 0x90 ≤ c1 ∧ c1 ≤ 0xBF
                      else if b = 0xF4 then 0x80 ≤ c1 ∧ c1 ≤ 0x8F
                      else 0x80 ≤ c1 ∧ c1 ≤ 0xBF) ∧
                     0x80 ≤ c2 ∧ c2 ≤ 0xBF ∧ 0x80 ≤ c3 ∧ c3 ≤ 0xBF then
                    (utf8Decode rest3).map (fun cs =>
                      Char.ofNat ((((b - 0xF0) * 64 + (c1 - 0x80)) * 64 + (c2 - 0x80)) * 64
                        + (c3 - 0x80)) :: cs)
                  else none
                else none

/-- `PacketString::from_str`: `format!("{data: <64}")` pads with spaces up to
a display width of 64 counted in characters, then `.as_bytes().try_into()`
into `[u8; 64]` fails unless the byte length is exactly 64.  There is no
truncation. -/
def PacketString.from_str (data : List Char) : Option (List Nat) :=
  let padded :=
    if data.length < 64 then data ++ List.replicate (64 - data.length) ' ' else data
  let bytes := utf8Encode padded
  if bytes.length = 64 then some bytes else none

/-- `trim_end_matches(' ')` on a character list. -/
def trimEndSpaces (s : List Char) : List Char :=
  (s.reverse.dropWhile (fun c => c = ' ')).reverse

/-- `PacketString::to_string`: `String::from_utf8(..).unwrap()` (the `none`
case models the panic on invalid UTF-8) then trim trailing spaces. -/
def PacketString.to_string (bytes : List Nat) : Option (List Char) :=
  (utf8Decode bytes).map trimEndSpaces

/-! ## Server-to-client packets (`networking/s2c.rs`), restricted to the
fields carried by each struct -/

/-- The S2C packet structs used by the world handlers.  String fields carry
the encoded 64-byte `PacketString`, fixed-point fields the raw `i16`/`i8`
value, angle fields the raw byte. -/
inductive S2CPacket where
  | serverIdent (protocol_version : Nat) (server_name server_motd : List Nat) (user_type : Nat)
  | levelInit
  | levelDataChunk (chunk_length : Int) (chunk_data : List Nat) (percent_complete : Nat)
  | levelFinalise (x_size y_size z_size : Int)
  | setBlock (x y z : Int) (block_type : Nat)
  | spawnPlayer (player_id : Int) (player_name : List Nat) (x y z : Int) (yaw pitch : Nat)
  | playerTeleport (player_id : Int) (x y z : Int) (yaw pitch : Nat)
  | posOriUpdate (player_id : Int) (delta_x delta_y delta_z : Int) (yaw pitch : Nat)
  | posUpdate (player_id : Int) (delta_x delta_y delta_z : Int)
  | oriUpdate (player_id : Int) (yaw pitch : Nat)
  | despawnPlayer (player_id : Int)
  | message (player_id : Int) (text : List Nat)
deriving DecidableEq, Repr

/-! ## Level transfer (`networking/s2c/util.rs`) -/

/-- `CHUNK_SIZE` of `networking/s2c/util.rs`. -/
def CHUNK_SIZE : Nat := 1024

/-- Rust `slice::chunks(n)`: consecutive pieces of length `n`, the last one
shorter when the length is not a multiple of `n`; an empty slice yields no
chunks. -/
def rustChunks (n : Nat) (l : List α) : List (List α) :=
  if h : l.isEmpty ∨ n = 0 then []
  else l.take n :: rustChunks n (l.drop n)
termination_by l.length
decreasing_by
  rw [not_or, List.isEmpty_iff] at h
  rw [List.length_drop]
  have hl : 0 < l.length := List.length_pos.mpr h.1
  have hn : n ≠ 0 := h.2
  omega

/-- The `LevelDataChunk` loop of `send_world`: for each 1024-byte chunk of
the serialised level, a packet with the chunk length, the chunk resized to
1024 bytes with zero fill, and `(i * CHUNK_SIZE * 100 / total) as u8`. -/
def level_chunk_packets (serialised : List Nat) : List S2CPacket :=
  (rustChunks CHUNK_SIZE serialised).enum.map (fun p =>
    S2CPacket.levelDataChunk (p.2.length)
      (p.2 ++ List.replicate (CHUNK_SIZE - p.2.length) 0)
      (p.1 * CHUNK_SIZE * 100 / serialised.length % 256))

/-- `send_world`, as the list of packets pushed into the session queue:
`LevelInit`, the data chunks, then `LevelFinalise` with the dimensions cast
`u32 as i16`. -/
def send_world (serialised : List Nat) (dims : UVec3) : List S2CPacket :=
  [S2CPacket.levelInit] ++ level_chunk_packets serialised ++
    [S2CPacket.levelFinalise (u32_as_i16 dims.x) (u32_as_i16 dims.y) (u32_as_i16 dims.z)]

/-! ## World-actor handlers (`main.rs`) -/

/-- `Player` component: name and allocated wire id. -/
structure Player where
  name : List Char
  id : Int
deriving DecidableEq, Repr

/-- `PlayerSpawnLocation` component of `main.rs`. -/
structure PlayerSpawnLocation where
  position : Vec3
  pitch : ℚ
  yaw : ℚ
deriving DecidableEq, Repr

/-- The spawn location installed by `main` (`vec3(16.0, 20.0, 16.0)`, zero
pitch and yaw). -/
def mainSpawnLocation : PlayerSpawnLocation :=
  { position := { x := 16, y := 20, z := 16 }, pitch := 0, yaw := 0 }

/-- An already-joined player as fetched by
`Fetcher<(&Position, &Rotation, &Player)>`. -/
structure JoinedPlayer where
  pos : Vec3
  rot : Rotation
  player : Player
deriving DecidableEq, Repr

/-- The `SpawnPlayer` packet built for one already-joined player inside the
join loop; `none` models the `PacketString::from_str(..).unwrap()` panic. -/
def spawn_packet_for (p : JoinedPlayer) : Option S2CPacket :=
  (PacketString.from_str p.player.name).map (fun pn =>
    S2CPacket.spawnPlayer p.player.id pn
      (FShort.from_f32 p.pos.x) (FShort.from_f32 p.pos.y) (FShort.from_f32 p.pos.z)
      (to_angle_byte p.rot.yaw) (to_angle_byte p.rot.pitch))

/-- `player_join_handler` of `main.rs`, as the packets pushed into the
joining session's outbound queue together with the updated allocator and the
records inserted for the new entity.  `none` models the panics
(`alloc` on a full table, `from_str(..).unwrap()`).  Note the hard-coded
`pitch: 0, yaw: 0` of the `PlayerTeleport` packet in the source. -/
def player_join_handler (entity_id : Nat) (username : List Char)
    (allocator : PlayerIdAllocator) (spawn_location : PlayerSpawnLocation)
    (serialised : List Nat) (dims : UVec3) (players : List JoinedPlayer) :
    Option (List S2CPacket × PlayerIdAllocator × Player × Vec3 × Rotation) := do
  let r ← allocator.alloc entity_id
  let player : Player := { name := username, id := r.1 }
  let server_name ← PacketString.from_str "vintage".data
  let server_motd ← PacketString.from_str "Vintage server".data
  let self_name ← PacketString.from_str username
  let other_packets ← players.mapM spawn_packet_for
  let packets :=
    [S2CPacket.serverIdent 7 server_name server_motd 0x64] ++
    send_world serialised dims ++
    [S2CPacket.playerTeleport (-1)
        (FShort.from_f32 spawn_location.position.x)
        (FShort.from_f32 spawn_location.position.y)
        (FShort.from_f32 spawn_location.position.z) 0 0,
     S2CPacket.spawnPlayer (-1) self_name
        (FShort.from_f32 spawn_location.position.x)
        (FShort.from_f32 spawn_location.position.y)
        (FShort.from_f32 spawn_location.position.z)
        (to_angle_byte spawn_location.yaw) (to_angle_byte spawn_location.pitch)] ++
    other_packets
  some (packets, r.2, player,
    spawn_location.position, { pitch := spawn_location.pitch, yaw := spawn_location.yaw })

/-- `SetBlockEvent` of `event.rs` (already past `Block::from_u8`
validation, so `block` is a valid block and `placed` is `mode == 1`). -/
structure SetBlockEvent where
  pos : UVec3
  placed : Bool
  block : Block
deriving DecidableEq, Repr

/-- `set_block_handler` of `main.rs` (the handler wired by the binary):
computes the broadcast byte from the mode, but writes `e.event.block` to the
world unconditionally; returns the updated world and the broadcast packet,
`none` modelling the out-of-bounds panic of `set_block`. -/
def set_block_handler (e : SetBlockEvent) (block_world : BlockWorld) :
    Option (BlockWorld × S2CPacket) :=
  let block := if e.placed then e.block.toU8 else Block.Air.toU8
  (block_world.set_block e.pos e.block).map (fun w =>
    (w, S2CPacket.setBlock (u32_as_i16 e.pos.x) (u32_as_i16 e.pos.y) (u32_as_i16 e.pos.z) block))

/-- `set_block_handler` of `default.rs` (the unused draft): writes the
mode-resolved block to the world and broadcasts the same value. -/
def default_set_block_handler (e : SetBlockEvent) (block_world : BlockWorld) :
    Option (BlockWorld × S2CPacket) :=
  let block := if e.placed then e.block else Block.Air
  (block_world.set_block e.pos block).map (fun w =>
    (w, S2CPacket.setBlock (u32_as_i16 e.pos.x) (u32_as_i16 e.pos.y) (u32_as_i16 e.pos.z)
      block.toU8))

/-- `send_player_move_packet` of `networking/s2c/util.rs`, as the single
movement packet pushed for one recipient (`none` when nothing is sent).
`pos1`/`rot1` are the stored values, `pos2`/`rot2` the new ones. -/
def send_player_move_packet (pos1 pos2 : Vec3) (rot1 rot2 : Rotation)
    (teleport_threshold : ℚ) (player_id : Int) : Option S2CPacket :=
  let rotation_changed := rot1 ≠ rot2
  let position_changed := pos1 ≠ pos2
  if Vec3.distSq pos1 pos2 < teleport_threshold ^ 2 then
    let delta_pos := Vec3.sub pos2 pos1
    if position_changed ∧ rotation_changed then
      some (S2CPacket.posOriUpdate player_id
        (FByte.from_f32 delta_pos.x) (FByte.from_f32 delta_pos.y) (FByte.from_f32 delta_pos.z)
        (to_angle_byte rot2.yaw) (to_angle_byte rot2.pitch))
    else if rotation_changed then
      some (S2CPacket.oriUpdate player_id (to_angle_byte rot2.yaw) (to_angle_byte rot2.pitch))
    else if position_changed then
      some (S2CPacket.posUpdate player_id
        (FByte.from_f32 delta_pos.x) (FByte.from_f32 delta_pos.y) (FByte.from_f32 delta_pos.z))
    else
      none
  else
    some (S2CPacket.playerTeleport player_id
      (FShort.from_f32 pos2.x) (FShort.from_f32 pos2.y) (FShort.from_f32 pos2.z)
      (to_angle_byte rot2.yaw) (to_angle_byte rot2.pitch))

/-- `PlayerMoveEvent` of `event.rs`. -/
structure PlayerMoveEvent where
  entity_id : Nat
  pos : Vec3
  rot : Rotation
deriving DecidableEq, Repr

/-- `player_move_handler` of `main.rs`: for every connection other than the
sender, the packet chosen by `send_player_move_packet` with threshold `3.0`
(the sender's entry is `none`); afterwards the stored position and rotation
are overwritten with the event's values.  `connections` is the fetched
`(EntityId, &ClientConnection)` list, `player_id` the allocator lookup of
the sender. -/
def player_move_handler (e : PlayerMoveEvent) (original_position : Vec3)
    (original_rotation : Rotation) (connections : List Nat) (player_id : Int) :
    List (Nat × Option S2CPacket) × Vec3 × Rotation :=
  (connections.map (fun id =>
    if id ≠ e.entity_id then
      (id, send_player_move_packet original_position e.pos original_rotation e.rot 3 player_id)
    else
      (id, none)),
   e.pos, e.rot)

/-- `player_message_handler` of `main.rs`: broadcast
`Message { id, "{name}: {message}" }`; `none` models the
`PacketString::from_str(..).unwrap()` panic when the combined text does not
fit. -/
def player_message_handler (player : Player) (message : List Char) : Option S2CPacket :=
  (PacketString.from_str (player.name ++ ": ".data ++ message)).map (fun m =>
    S2CPacket.message player.id m)

/-! ## Claim theorems -/

/-- C1.  The claim fails on the wired handler: `set_block_handler` in
`main.rs` computes the mode-resolved byte only for the broadcast and writes
the advisory `e.event.block` to the world unconditionally.  At a mode-0
(deletion) event carrying Stone, the world cell becomes Stone — not Air —
while the broadcast `SetBlock` carries block 0, so the broadcast does not
carry the block actually stored.  (The unused draft in `default.rs` behaves
as the claim states.) -/
theorem set_block_handler_mode0_stores_advisory_block :
    set_block_handler { pos := ⟨0, 0, 0⟩, placed := false, block := Block.Stone }
        (BlockWorld.new ⟨2, 1, 2⟩) =
      some ({ dimensions := ⟨2, 1, 2⟩,
              blocks := [Block.Stone, Block.Air, Block.Air, Block.Air] },
            S2CPacket.setBlock 0 0 0 0) ∧
    default_set_block_handler { pos := ⟨0, 0, 0⟩, placed := false, block := Block.Stone }
        (BlockWorld.new ⟨2, 1, 2⟩) =
      some (BlockWorld.new ⟨2, 1, 2⟩, S2CPacket.setBlock 0 0 0 0) := by
  decide

/-- C3.  `BlockWorld::new` does allocate `x*y*z` blocks, but `deserialise`
only compares the declared i32 count with `x*y*z` and never checks how many
data bytes were actually present: on a decompressed stream declaring one
block but carrying zero data bytes it returns a world with an empty block
array, violating `len(blocks) = X·Y·Z`. -/
theorem deserialise_short_payload_breaks_length_invariant :
    (∀ dims : UVec3, (BlockWorld.new dims).blocks.length = dims.x * dims.y * dims.z) ∧
    BlockWorld.deserialise [0, 0, 0, 1] ⟨1, 1, 1⟩ =
      some { dimensions := ⟨1, 1, 1⟩, blocks := [] } ∧
    ([] : List Block).length ≠ 1 * 1 * 1 := by
  refine ⟨fun dims => ?_, by decide, by decide⟩
  simp [BlockWorld.new]

/-- C4.  127 successive allocations from the empty table fill slots 0..126
in order, and the 128th allocation hits the
`panic!("No more player ids available")` (modelled by `none`) — the source
has no `ServerFull` error value at all. -/
theorem alloc_on_full_table_panics :
    allocAll PlayerIdAllocator.new_empty (List.range 127) =
      some { occupation := (List.range 127).map some } ∧
    (PlayerIdAllocator.mk ((List.range 127).map some)).alloc 127 = none := by
  decide

/-- C7.  `PacketString::from_str` never truncates: when the combined
`"{name}: {message}"` text exceeds 64 bytes it returns an error and the
handler's `.unwrap()` panics (modelled by `none`), so handling does not
succeed for every name and message length.  Here `"Alice: "` plus a
60-character message is 67 bytes. -/
theorem player_message_handler_panics_on_long_text :
    player_message_handler { name := "Alice".data, id := 0 } (List.replicate 60 'a') = none ∧
    ("Alice".data ++ ": ".data ++ List.replicate 60 'a').length = 67 := by
  decide

/-- C8 counterexample.  The single character `'é'` encodes to 2 UTF-8 bytes
(well under 64), yet `PacketString::from_str` fails on it: the format
padding counts characters, so the padded text is 65 bytes and the
`[u8; 64]` conversion errors.  Construction therefore does not succeed for
every string whose UTF-8 form is at most 64 bytes, and does not fail
exactly on the over-64-byte inputs. -/
theorem packet_string_nonascii_counterexample :
    (utf8Encode ['é']).length ≤ 64 ∧ PacketString.from_str ['é'] = none := by
  decide

/-- C9 counterexample.  In a world with dimensions `(2, 1, 3)` (where
`X ≠ Z`), `set_block` at the in-bounds corner `(X-1, Y-1, Z-1) = (1, 0, 2)`
computes flat index 7 for a 6-element array and panics (`none`), while
`set_block` at the out-of-range `(X, 0, 0) = (2, 0, 0)` computes index 2 and
silently overwrites an interior cell instead of being rejected. -/
theorem set_block_bounds_counterexample :
    (BlockWorld.new ⟨2, 1, 3⟩).set_block ⟨1, 0, 2⟩ Block.Stone = none ∧
    (BlockWorld.new ⟨2, 1, 3⟩).set_block ⟨2, 0, 0⟩ Block.Stone =
      some { dimensions := ⟨2, 1, 3⟩,
             blocks := [Block.Air, Block.Air, Block.Stone,
                        Block.Air, Block.Air, Block.Air] } := by
  decide

/-- C10 counterexample.  In a world with dimensions `(3, 1, 2)` the distinct
in-bounds positions `(2, 0, 0)` and `(0, 0, 1)` share flat index 2
(`x + z·Z + y·X·Z` is not injective when `X ≠ Z`), so setting a Stone at the
first position changes `get_block` at the second from Air to Stone. -/
theorem pos_to_index_collision_counterexample :
    ((⟨2, 0, 0⟩ : UVec3) ≠ ⟨0, 0, 1⟩) ∧
    (2 < 3 ∧ 0 < 1 ∧ 0 < 2) ∧ (0 < 3 ∧ 0 < 1 ∧ 1 < 2) ∧
    (BlockWorld.new ⟨3, 1, 2⟩).get_block ⟨0, 0, 1⟩ = some Block.Air ∧
    ((BlockWorld.new ⟨3, 1, 2⟩).set_block ⟨2, 0, 0⟩ Block.Stone).map
        (fun w => w.get_block ⟨0, 0, 1⟩) = some (some Block.Stone) := by
  decide

/-- C5.  Movement fan-out: with the squared-distance form of the `f32`
comparison (`distance ≥ 3.0` iff `distSq ≥ 9`), the packet chosen by
`send_player_move_packet` at threshold 3 is: a `PlayerTeleport` with the new
absolute position and rotation when `distSq ≥ 9` (inclusive boundary);
otherwise `PosOriUpdate` when both position and rotation changed,
`OriUpdate` when only rotation changed, `PosUpdate` when only position
changed, and nothing when neither changed.  `player_move_handler` sends that
packet to every connection other than the sender, sends the sender nothing,
and afterwards stores the new position and rotation. -/
theorem player_move_packet_selection (pos1 pos2 : Vec3) (rot1 rot2 : Rotation) (pid : Int)
    (e : PlayerMoveEvent) (connections : List Nat) :
    (9 ≤ Vec3.distSq pos1 pos2 →
      send_player_move_packet pos1 pos2 rot1 rot2 3 pid =
        some (S2CPacket.playerTeleport pid (FShort.from_f32 pos2.x) (FShort.from_f32 pos2.y)
          (FShort.from_f32 pos2.z) (to_angle_byte rot2.yaw) (to_angle_byte rot2.pitch))) ∧
    (Vec3.distSq pos1 pos2 < 9 → pos1 ≠ pos2 → rot1 ≠ rot2 →
      send_player_move_packet pos1 pos2 rot1 rot2 3 pid =
        some (S2CPacket.posOriUpdate pid
          (FByte.from_f32 (pos2.x - pos1.x)) (FByte.from_f32 (pos2.y - pos1.y))
          (FByte.from_f32 (pos2.z - pos1.z))
          (to_angle_byte rot2.yaw) (to_angle_byte rot2.pitch))) ∧
    (Vec3.distSq pos1 pos2 < 9 → pos1 = pos2 → rot1 ≠ rot2 →
      send_player_move_packet pos1 pos2 rot1 rot2 3 pid =
        some (S2CPacket.oriUpdate pid (to_angle_byte rot2.yaw) (to_angle_byte rot2.pitch))) ∧
    (Vec3.distSq pos1 pos2 < 9 → pos1 ≠ pos2 → rot1 = rot2 →
      send_player_move_packet pos1 pos2 rot1 rot2 3 pid =
        some (S2CPacket.posUpdate pid
          (FByte.from_f32 (pos2.x - pos1.x)) (FByte.from_f32 (pos2.y - pos1.y))
          (FByte.from_f32 (pos2.z - pos1.z)))) ∧
    (pos1 = pos2 → rot1 = rot2 →
      send_player_move_packet pos1 pos2 rot1 rot2 3 pid = none) ∧
    (player_move_handler e pos1 rot1 connections pid).2.1 = e.pos ∧
    (player_move_handler e pos1 rot1 connections pid).2.2 = e.rot ∧
    (∀ id ∈ connections, id = e.entity_id →
      (id, (none : Option S2CPacket)) ∈ (player_move_handler e pos1 rot1 connections pid).1) ∧
    (∀ id ∈ connections, id ≠ e.entity_id →
      (id, send_player_move_packet pos1 e.pos rot1 e.rot 3 pid) ∈
        (player_move_handler e pos1 rot1 connections pid).1) := by
  have hsq : ((3 : ℚ)) ^ 2 = 9 := by norm_num
  refine ⟨?_, ?_, ?_, ?_, ?_, rfl, rfl, ?_, ?_⟩
  · intro h
    unfold send_player_move_packet
    rw [hsq, if_neg (not_lt.mpr h)]
  · intro hd hpos hrot
    unfold send_player_move_packet
    rw [hsq, if_pos hd, if_pos ⟨hpos, hrot⟩]
    rfl
  · intro hd hpos hrot
    subst hpos
    unfold send_player_move_packet
    rw [hsq, if_pos hd, if_neg (fun hc => hc.1 rfl), if_pos hrot]
  · intro hd hpos hrot
    subst hrot
    unfold send_player_move_packet
    rw [hsq, if_pos hd, if_neg (fun hc => hc.2 rfl), if_neg (fun hc => hc rfl), if_pos hpos]
    rfl
  · intro hpos hrot
    subst hpos; subst hrot
    unfold send_player_move_packet
    have h0 : Vec3.distSq pos1 pos1 = 0 := by simp [Vec3.distSq]
    rw [hsq, if_pos (by rw [h0]; norm_num), if_neg (fun hc => hc.1 rfl),
      if_neg (fun hc => hc rfl), if_neg (fun hc => hc rfl)]
  · intro id hid heq
    exact List.mem_map.mpr ⟨id, hid, by simp [heq]⟩
  · intro id hid hne
    exact List.mem_map.mpr ⟨id, hid, by simp [hne]⟩

/-- C5 witness: a move of exactly 3 blocks along x (squared distance exactly
9, the inclusive boundary) yields the `PlayerTeleport` packet. -/
theorem player_move_packet_selection_witness :
    9 ≤ Vec3.distSq ⟨0, 0, 0⟩ ⟨3, 0, 0⟩ ∧
    send_player_move_packet ⟨0, 0, 0⟩ ⟨3, 0, 0⟩ ⟨0, 0⟩ ⟨0, 0⟩ 3 5 =
      some (S2CPacket.playerTeleport 5 (FShort.from_f32 (3 : ℚ)) (FShort.from_f32 0)
        (FShort.from_f32 0) (to_angle_byte 0) (to_angle_byte 0)) :=
  ⟨by norm_num [Vec3.distSq],
   (player_move_packet_selection ⟨0, 0, 0⟩ ⟨3, 0, 0⟩ ⟨0, 0⟩ ⟨0, 0⟩ 5
      { entity_id := 0, pos := ⟨0, 0, 0⟩, rot := ⟨0, 0⟩ } []).1
     (by norm_num [Vec3.distSq])⟩

/-- Unfolding lemma: `rustChunks` of the empty slice is empty. -/
theorem rustChunks_nil (n : Nat) : rustChunks n ([] : List α) = [] := by
  rw [rustChunks]
  simp

/-- Unfolding lemma: `rustChunks` on a non-empty list with positive `n`. -/
theorem rustChunks_cons_eq (n : Nat) (hn : 0 < n) (l : List α) (hl : l ≠ []) :
    rustChunks n l = l.take n :: rustChunks n (l.drop n) := by
  rw [rustChunks, dif_neg]
  rw [not_or, List.isEmpty_iff]
  exact ⟨hl, hn.ne'⟩

/-- Pointwise description of `rustChunks`: the `i`-th chunk is the slice of
length at most `n` starting at offset `i * n`. -/
theorem rustChunks_get (n : Nat) (hn : 0 < n) (l : List α) (i : Nat) :
    (rustChunks n l).get? i =
      if i * n < l.length then some ((l.drop (i * n)).take n) else none := by
  suffices H : ∀ (len : Nat) (l : List α) (i : Nat), l.length = len →
      (rustChunks n l).get? i =
        if i * n < l.length then some ((l.drop (i * n)).take n) else none by
    exact H l.length l i rfl
  intro len
  induction len using Nat.strong_induction_on with
  | _ len ih =>
    intro l i hlen
    rcases eq_or_ne l [] with rfl | hne
    · rw [rustChunks]
      simp
    · rw [rustChunks_cons_eq n hn l hne]
      cases i with
      | zero =>
        rw [if_pos (by simp only [Nat.zero_mul]; exact List.length_pos.mpr hne)]
        simp
      | succ i =>
        have hpos : 0 < l.length := List.length_pos.mpr hne
        have hlt : (l.drop n).length < len := by
          rw [List.length_drop, ← hlen]
          omega
        rw [List.get?_cons_succ, ih (l.drop n).length hlt (l.drop n) i rfl]
        rw [List.length_drop, List.drop_drop]
        have harith : (i + 1) * n = n + i * n := by ring
        rw [harith]
        exact if_congr (by omega) rfl rfl

/-- C6.  Amended chunking property: the `i`-th `LevelDataChunk` carries the
1024-byte slice at offset `i·1024`, right-zero-padded to 1024 bytes, with
`percent = i·1024·100 / total`; every chunk except the last has length 1024;
the last chunk has length `total mod 1024` — except that when `total` is a
multiple of 1024 the last chunk has length 1024, not 0 as the claim's
`total mod 1024` states. -/
theorem level_chunk_packets_structure (serialised : List Nat) (hne : serialised ≠ []) :
    0 < (level_chunk_packets serialised).length ∧
    (∀ i, (level_chunk_packets serialised).get? i =
      if i * 1024 < serialised.length then
        some (S2CPacket.levelDataChunk (((serialised.drop (i * 1024)).take 1024).length)
          ((serialised.drop (i * 1024)).take 1024 ++
            List.replicate (1024 - ((serialised.drop (i * 1024)).take 1024).length) 0)
          (i * 1024 * 100 / serialised.length))
      else none) ∧
    (∀ i, i + 1 < (level_chunk_packets serialised).length →
      ((serialised.drop (i * 1024)).take 1024).length = 1024) ∧
    (((serialised.drop
        (((level_chunk_packets serialised).length - 1) * 1024)).take 1024).length =
      if serialised.length % 1024 = 0 then 1024 else serialised.length % 1024) := by
  have htot : 0 < serialised.length := List.length_pos.mpr hne
  have hget : ∀ i, (level_chunk_packets serialised).get? i =
      if i * 1024 < serialised.length then
        some (S2CPacket.levelDataChunk (((serialised.drop (i * 1024)).take 1024).length)
          ((serialised.drop (i * 1024)).take 1024 ++
            List.replicate (1024 - ((serialised.drop (i * 1024)).take 1024).length) 0)
          (i * 1024 * 100 / serialised.length)) else none := by
    intro i
    have hpct : i * 1024 < serialised.length →
        i * 1024 * 100 / serialised.length % 256 = i * 1024 * 100 / serialised.length := by
      intro hi
      have h1 : i * 1024 * 100 / serialised.length < 256 := by
        have h2 : i * 1024 * 100 < serialised.length * 256 := by nlinarith
        exact Nat.div_lt_of_lt_mul (by omega)
      exact Nat.mod_eq_of_lt h1
    rw [level_chunk_packets]
    simp only [CHUNK_SIZE]
    rw [List.get?_map, List.get?_enum, rustChunks_get 1024 (by norm_num) serialised i]
    split_ifs with hi
    · simp [hpct hi]
    · rfl
  have hmem : ∀ i, i < (level_chunk_packets serialised).length ↔
      i * 1024 < serialised.length := by
    intro i
    rw [← not_iff_not, not_lt, ← List.get?_eq_none, hget i]
    constructor
    · intro h
      by_contra hc
      rw [if_pos (by omega)] at h
      exact Option.noConfusion h
    · intro h
      rw [if_neg (by omega)]
  refine ⟨?_, hget, ?_, ?_⟩
  · rw [← Nat.not_le, ← List.get?_eq_none, hget 0, if_pos (by omega)]
    exact fun h => Option.noConfusion h
  · intro i hi
    have h1 : (i + 1) * 1024 < serialised.length := (hmem (i + 1)).mp hi
    simp only [List.length_take, List.length_drop]
    omega
  · set k := (level_chunk_packets serialised).length with hk
    have hk0 : 0 < k := by
      rw [hk, ← Nat.not_le, ← List.get?_eq_none, hget 0, if_pos (by omega)]
      exact fun h => Option.noConfusion h
    have hlast : (k - 1) * 1024 < serialised.length := (hmem (k - 1)).mp (by omega)
    have hout : ¬ k * 1024 < serialised.length := fun hc => absurd ((hmem k).mpr hc) (by omega)
    simp only [List.length_take, List.length_drop]
    have hsplit : serialised.length = (k - 1) * 1024 + (serialised.length - (k - 1) * 1024) := by
      omega
    have hr1 : 0 < serialised.length - (k - 1) * 1024 := by omega
    have hr2 : serialised.length - (k - 1) * 1024 ≤ 1024 := by omega
    have hmod : serialised.length % 1024 = (serialised.length - (k - 1) * 1024) % 1024 := by
      conv_lhs => rw [hsplit]
      rw [Nat.add_comm, Nat.add_mul_mod_self_right]
    rcases eq_or_lt_of_le hr2 with heq | hlt
    · rw [hmod, heq]
      simp
    · rw [hmod, Nat.mod_eq_of_lt hlt, if_neg (by omega)]
      omega

/-- C6 counterexample.  On a 1024-byte serialised stream the transfer emits
a single chunk whose `chunk_length` is 1024, while `total mod 1024 = 0`: the
last chunk does not carry `total mod 1024` when the total is a multiple of
1024. -/
theorem level_chunk_mod1024_counterexample :
    level_chunk_packets (List.replicate 1024 0) =
      [S2CPacket.levelDataChunk 1024 (List.replicate 1024 0) 0] ∧
    (List.replicate (α := Nat) 1024 0).length % 1024 = 0 ∧
    (1024 : Int) ≠ 0 := by
  have htake : (List.replicate (α := Nat) 1024 0).take 1024 = List.replicate 1024 0 := by
    decide
  have hdrop : (List.replicate (α := Nat) 1024 0).drop 1024 = [] := by decide
  refine ⟨?_, by rfl, by decide⟩
  rw [level_chunk_packets]
  simp only [CHUNK_SIZE]
  rw [rustChunks_cons_eq 1024 (by norm_num) _ (by decide), htake, hdrop, rustChunks_nil]
  decide

/-- C6 witness: a 3-byte serialised stream has a single chunk of length 3,
which equals `3 mod 1024`. -/
theorem level_chunk_packets_structure_witness :
    ((([7, 7, 7] : List Nat).drop
        (((level_chunk_packets [7, 7, 7]).length - 1) * 1024)).take 1024).length =
      if ([7, 7, 7] : List Nat).length % 1024 = 0 then 1024
      else ([7, 7, 7] : List Nat).length % 1024 :=
  (level_chunk_packets_structure [7, 7, 7] (by decide)).2.2.2

/-- One-byte encodings are exactly the ASCII range. -/
theorem utf8EncodeChar_ascii (c : Char) (h : c.toNat < 128) : utf8EncodeChar c = [c.toNat] := by
  rw [utf8EncodeChar]
  simp only [if_pos h]

/-- Every character encodes to at least one byte. -/
theorem utf8EncodeChar_length_pos (c : Char) : 0 < (utf8EncodeChar c).length := by
  rw [utf8EncodeChar]
  split_ifs <;> simp

/-- A character encodes to exactly one byte iff it is ASCII. -/
theorem utf8EncodeChar_length_one (c : Char) :
    (utf8EncodeChar c).length = 1 ↔ c.toNat < 128 := by
  rw [utf8EncodeChar]
  split_ifs with h1 h2 h3 <;> simp [h1]

theorem utf8Encode_cons (c : Char) (cs : List Char) :
    utf8Encode (c :: cs) = utf8EncodeChar c ++ utf8Encode cs := by
  simp [utf8Encode]

theorem utf8Encode_append (s t : List Char) :
    utf8Encode (s ++ t) = utf8Encode s ++ utf8Encode t := by
  simp [utf8Encode]

/-- The UTF-8 form is never shorter than the character count. -/
theorem length_le_utf8Encode_length (s : List Char) : s.length ≤ (utf8Encode s).length := by
  induction s with
  | nil => simp [utf8Encode]
  | cons c cs ih =>
    rw [utf8Encode_cons]
    have := utf8EncodeChar_length_pos c
    simp only [List.length_cons, List.length_append]
    omega

/-- The UTF-8 form has exactly one byte per character iff all characters are
ASCII. -/
theorem utf8Encode_length_eq_iff (s : List Char) :
    (utf8Encode s).length = s.length ↔ ∀ c ∈ s, c.toNat < 128 := by
  induction s with
  | nil => simp [utf8Encode]
  | cons c cs ih =>
    rw [utf8Encode_cons]
    have h1 := utf8EncodeChar_length_pos c
    have h2 := length_le_utf8Encode_length cs
    have h3 := utf8EncodeChar_length_one c
    simp only [List.length_append, List.length_cons, List.mem_cons]
    constructor
    · intro h
      have hc : (utf8EncodeChar c).length = 1 := by omega
      have hcs : (utf8Encode cs).length = cs.length := by omega
      exact fun d hd => hd.elim (fun he => he ▸ h3.mp hc) (ih.mp hcs d)
    · intro h
      have hc : (utf8EncodeChar c).length = 1 := h3.mpr (h c (Or.inl rfl))
      have hcs : (utf8Encode cs).length = cs.length := ih.mpr (fun d hd => h d (Or.inr hd))
      omega

/-- On ASCII strings the UTF-8 encoding is the plain code-point list. -/
theorem utf8Encode_ascii (s : List Char) (h : ∀ c ∈ s, c.toNat < 128) :
    utf8Encode s = s.map Char.toNat := by
  induction s with
  | nil => rfl
  | cons c cs ih =>
    rw [utf8Encode_cons, utf8EncodeChar_ascii c (h c (List.mem_cons_self c cs)),
      ih (fun d hd => h d (List.mem_cons_of_mem c hd))]
    rfl

/-- Unfolding lemma for the ASCII branch of the decoder. -/
theorem utf8Decode_cons_ascii (b : Nat) (rest : List Nat) (hb : b < 128) :
    utf8Decode (b :: rest) = (utf8Decode rest).map (fun cs => Char.ofNat b :: cs) := by
  rw [utf8Decode.eq_def]
  simp only [hb, if_true, if_pos]

theorem utf8Decode_ascii (bs : List Nat) (h : ∀ b ∈ bs, b < 128) :
    utf8Decode bs = some (bs.map Char.ofNat) := by
  induction bs with
  | nil => rfl
  | cons b rest ih =>
    have hb : b < 128 := h b (List.mem_cons_self b rest)
    have hrest := ih (fun d hd => h d (List.mem_cons_of_mem b hd))
    rw [utf8Decode_cons_ascii b rest hb, hrest]
    rfl

/-- Round-trip identity on characters, lifted to lists. -/
theorem map_ofNat_toNat (u : List Char) : u.map (fun c => Char.ofNat c.toNat) = u := by
  induction u with
  | nil => rfl
  | cons a t iht => simp [iht]

/-- Trailing spaces do not survive `trim_end_matches(' ')`. -/
theorem trimEndSpaces_append_spaces (s : List Char) (k : Nat) :
    trimEndSpaces (s ++ List.replicate k ' ') = trimEndSpaces s := by
  rw [trimEndSpaces, trimEndSpaces, List.reverse_append, List.reverse_replicate]
  congr 1
  induction k with
  | zero => simp
  | succ k ih => simpa [List.replicate_succ, List.dropWhile] using ih

/-- `from_str` succeeds exactly on ASCII strings of at most 64 characters:
the byte length of the padded text is `len(utf8) + (64 - chars)`, which is
64 iff every character is a single byte and there are at most 64 of them. -/
theorem from_str_isSome_iff (t : List Char) :
    (PacketString.from_str t).isSome ↔ (∀ c ∈ t, c.toNat < 128) ∧ t.length ≤ 64 := by
  rw [PacketString.from_str]
  have hge := length_le_utf8Encode_length t
  have hiff := utf8Encode_length_eq_iff t
  split_ifs with hlen hbytes hbytes
  · simp only [Option.isSome_some, true_iff]
    rw [utf8Encode_append] at hbytes
    simp only [List.length_append] at hbytes
    have hsp : (utf8Encode (List.replicate (64 - t.length) ' ')).length = 64 - t.length := by
      rw [utf8Encode_ascii]
      · simp
      · intro c hc
        rw [List.eq_of_mem_replicate hc]
        decide
    rw [hsp] at hbytes
    exact ⟨hiff.mp (by omega), by omega⟩
  · simp only [Option.isSome_none, Bool.false_eq_true, false_iff, not_and]
    intro hascii
    rw [utf8Encode_append] at hbytes
    simp only [List.length_append] at hbytes
    have hsp : (utf8Encode (List.replicate (64 - t.length) ' ')).length = 64 - t.length := by
      rw [utf8Encode_ascii]
      · simp
      · intro c hc
        rw [List.eq_of_mem_replicate hc]
        decide
    rw [hsp, hiff.mpr hascii] at hbytes
    omega
  · simp only [Option.isSome_some, true_iff]
    refine ⟨hiff.mp (by omega), by omega⟩
  · simp only [Option.isSome_none, Bool.false_eq_true, false_iff, not_and]
    intro hascii
    rw [hiff.mpr hascii] at hbytes
    omega

/-- C8 (amended).  For ASCII strings of at most 64 characters, `from_str`
produces exactly the code-point bytes right-padded with 0x20 to 64 bytes,
and decoding that gives back the string with trailing spaces trimmed.  In
general construction succeeds exactly for ASCII strings of at most 64
characters — not for every string whose UTF-8 form is at most 64 bytes,
because the space padding is counted in characters. -/
theorem packet_string_ascii_roundtrip (s : List Char)
    (hascii : ∀ c ∈ s, c.toNat < 128) (hlen : s.length ≤ 64) :
    PacketString.from_str s = some (s.map Char.toNat ++ List.replicate (64 - s.length) 32) ∧
    (PacketString.from_str s).bind PacketString.to_string = some (trimEndSpaces s) ∧
    (∀ t : List Char,
      (PacketString.from_str t).isSome ↔ (∀ c ∈ t, c.toNat < 128) ∧ t.length ≤ 64) := by
  have hspace : ∀ k, ∀ c ∈ List.replicate k ' ', Char.toNat c < 128 := by
    intro k c hc
    rw [List.eq_of_mem_replicate hc]
    decide
  have hval : PacketString.from_str s =
      some (s.map Char.toNat ++ List.replicate (64 - s.length) 32) := by
    rw [PacketString.from_str]
    rcases lt_or_ge s.length 64 with hl | hl
    · rw [if_pos hl]
      have hpad : utf8Encode (s ++ List.replicate (64 - s.length) ' ') =
          s.map Char.toNat ++ List.replicate (64 - s.length) 32 := by
        rw [utf8Encode_append, utf8Encode_ascii s hascii,
          utf8Encode_ascii _ (hspace (64 - s.length))]
        simp [List.map_replicate]
      rw [hpad, if_pos (by simp; omega)]
    · have hl64 : s.length = 64 := by omega
      rw [if_neg (not_lt.mpr hl)]
      rw [utf8Encode_ascii s hascii, if_pos (by simp [hl64])]
      simp [hl64]
  refine ⟨hval, ?_, from_str_isSome_iff⟩
  rw [hval, Option.some_bind, PacketString.to_string]
  have hb : ∀ b ∈ s.map Char.toNat ++ List.replicate (64 - s.length) 32, b < 128 := by
    intro b hb
    rcases List.mem_append.mp hb with hb | hb
    · obtain ⟨c, hc, rfl⟩ := List.mem_map.mp hb
      exact hascii c hc
    · rw [List.eq_of_mem_replicate hb]
      omega
  have h32 : Char.ofNat 32 = ' ' := by decide
  have hdec : utf8Decode (s.map Char.toNat ++ List.replicate (64 - s.length) 32) =
      some (s ++ List.replicate (64 - s.length) ' ') := by
    rw [utf8Decode_ascii _ hb, List.map_append, List.map_map, List.map_replicate,
      Function.comp_def, map_ofNat_toNat, h32]
  rw [hdec]
  simp [trimEndSpaces_append_spaces]

/-- C8 witness: the ASCII string "Bob " (with one trailing space) encodes to
its padded byte form and decodes back to "Bob". -/
theorem packet_string_ascii_roundtrip_witness :
    (∀ c ∈ "Bob ".data, c.toNat < 128) ∧ "Bob ".data.length ≤ 64 ∧
    (PacketString.from_str "Bob ".data).bind PacketString.to_string =
      some (trimEndSpaces "Bob ".data) :=
  ⟨by decide, by decide,
   (packet_string_ascii_roundtrip "Bob ".data (by decide) (by decide)).2.1⟩

/-- With a square base (`X = Z`) the raw flat index of an in-bounds
position is below `X · Y · X`. -/
theorem sq_index_lt (X Y x z y : Nat) (hx : x < X) (hz : z < X) (hy : y < Y) :
    x + z * X + y * X * X < X * Y * X := by
  have hz1 : z + 1 ≤ X := hz
  have hy1 : y + 1 ≤ Y := hy
  have h1 : (z + 1) * X ≤ X * X := Nat.mul_le_mul hz1 (le_refl X)
  have h2 : (y + 1) * (X * X) ≤ Y * (X * X) := Nat.mul_le_mul hy1 (le_refl (X * X))
  nlinarith [h1, h2, hx]

/-- With a square base the flat-index map is injective on in-bounds
coordinates. -/
theorem sq_index_inj (X x1 z1 y1 x2 z2 y2 : Nat)
    (hx1 : x1 < X) (hz1 : z1 < X) (hx2 : x2 < X) (hz2 : z2 < X)
    (heq : x1 + z1 * X + y1 * X * X = x2 + z2 * X + y2 * X * X) :
    x1 = x2 ∧ z1 = z2 ∧ y1 = y2 := by
  have hX : 0 < X := by omega
  have e1 : x1 + X * (z1 + X * y1) = x2 + X * (z2 + X * y2) := by
    calc x1 + X * (z1 + X * y1) = x1 + z1 * X + y1 * X * X := by ring
    _ = x2 + z2 * X + y2 * X * X := heq
    _ = x2 + X * (z2 + X * y2) := by ring
  have hxx : x1 = x2 := by
    have m1 := congrArg (· % X) e1
    simp only [Nat.add_mul_mod_self_left] at m1
    rwa [Nat.mod_eq_of_lt hx1, Nat.mod_eq_of_lt hx2] at m1
  subst hxx
  have e2 : z1 + X * y1 = z2 + X * y2 :=
    Nat.eq_of_mul_eq_mul_left hX (Nat.add_left_cancel e1)
  have hzz : z1 = z2 := by
    have m2 := congrArg (· % X) e2
    simp only [Nat.add_mul_mod_self_left] at m2
    rwa [Nat.mod_eq_of_lt hz1, Nat.mod_eq_of_lt hz2] at m2
  subst hzz
  exact ⟨rfl, rfl, Nat.eq_of_mul_eq_mul_left hX (Nat.add_left_cancel e2)⟩

/-- With a square base and no `u32` overflow, `pos_to_index` of an in-bounds
position is the raw formula and lies inside the canonical array length. -/
theorem pos_to_index_sq (w : BlockWorld) (p : UVec3)
    (hsq : w.dimensions.x = w.dimensions.z)
    (hbound : w.dimensions.x * w.dimensions.y * w.dimensions.z ≤ 2 ^ 32)
    (hp : p.x < w.dimensions.x ∧ p.y < w.dimensions.y ∧ p.z < w.dimensions.z) :
    w.pos_to_index p =
      p.x + p.z * w.dimensions.x + p.y * w.dimensions.x * w.dimensions.x ∧
    w.pos_to_index p < w.dimensions.x * w.dimensions.y * w.dimensions.z := by
  obtain ⟨hx, hy, hz⟩ := hp
  rw [← hsq] at hz hbound ⊢
  have hlt : p.x + p.z * w.dimensions.x + p.y * w.dimensions.x * w.dimensions.x <
      w.dimensions.x * w.dimensions.y * w.dimensions.x :=
    sq_index_lt _ _ _ _ _ hx hz hy
  have hmod : w.pos_to_index p =
      p.x + p.z * w.dimensions.x + p.y * w.dimensions.x * w.dimensions.x := by
    rw [BlockWorld.pos_to_index, BlockWorld.dims, ← hsq]
    exact Nat.mod_eq_of_lt (by omega)
  exact ⟨hmod, by omega⟩

/-- C10 (amended).  On worlds with a square base (`X = Z`, as in the 64×32×64
world the binary constructs) and with the length invariant, `set_block` at an
in-bounds position leaves `get_block` at any other in-bounds position
unchanged — the index map is injective there.  (For `X ≠ Z` the claim fails,
see the counterexample.) -/
theorem set_block_frame_square_dims (w : BlockWorld) (p q : UVec3) (b : Block)
    (hlen : w.blocks.length = w.dimensions.x * w.dimensions.y * w.dimensions.z)
    (hsq : w.dimensions.x = w.dimensions.z)
    (hbound : w.dimensions.x * w.dimensions.y * w.dimensions.z ≤ 2 ^ 32)
    (hp : p.x < w.dimensions.x ∧ p.y < w.dimensions.y ∧ p.z < w.dimensions.z)
    (hq : q.x < w.dimensions.x ∧ q.y < w.dimensions.y ∧ q.z < w.dimensions.z)
    (hne : p ≠ q) :
    ∃ w2, w.set_block p b = some w2 ∧ w2.get_block q = w.get_block q := by
  obtain ⟨hip, hbp⟩ := pos_to_index_sq w p hsq hbound hp
  obtain ⟨hiq, hbq⟩ := pos_to_index_sq w q hsq hbound hq
  have hplen : w.pos_to_index p < w.blocks.length := by omega
  have hidx : w.pos_to_index p ≠ w.pos_to_index q := by
    intro hc
    rw [hip, hiq] at hc
    obtain ⟨e1, e2, e3⟩ := sq_index_inj w.dimensions.x _ _ _ _ _ _
      hp.1 (hsq ▸ hp.2.2) hq.1 (hsq ▸ hq.2.2) hc
    apply hne
    cases p
    cases q
    simp only [UVec3.mk.injEq]
    exact ⟨e1, e3, e2⟩
  refine ⟨{ w with blocks := w.blocks.set (w.pos_to_index p) b }, ?_, ?_⟩
  · rw [BlockWorld.set_block]
    simp only [if_pos hplen]
  · rw [BlockWorld.get_block, BlockWorld.get_block]
    have hsame : BlockWorld.pos_to_index
        { w with blocks := w.blocks.set (w.pos_to_index p) b } q = w.pos_to_index q := rfl
    rw [hsame, List.get?_eq_getElem?, List.get?_eq_getElem?, List.getElem?_set_ne hidx]

/-- C10 witness: in the square 2×1×2 world, setting a Stone at the origin
leaves the block at `(1, 0, 0)` unchanged. -/
theorem set_block_frame_square_dims_witness :
    ∃ w2, (BlockWorld.new ⟨2, 1, 2⟩).set_block ⟨0, 0, 0⟩ Block.Stone = some w2 ∧
      w2.get_block ⟨1, 0, 0⟩ = (BlockWorld.new ⟨2, 1, 2⟩).get_block ⟨1, 0, 0⟩ :=
  set_block_frame_square_dims (BlockWorld.new ⟨2, 1, 2⟩) ⟨0, 0, 0⟩ ⟨1, 0, 0⟩ Block.Stone
    (by decide) (by decide) (by decide) (by decide) (by decide) (by decide)

/-- C9 (amended).  On worlds with a square base and the length invariant,
`set_block` at the corner `(X-1, Y-1, Z-1)` succeeds; `set_block` at the
out-of-range `(X, 0, 0)` is not rejected but silently writes into the array
whenever `1 < Y·Z` (it only panics in the degenerate `1×1×1` case).  (For
`X ≠ Z` even the corner write can panic, see the counterexample.) -/
theorem set_block_bounds_square_dims (w : BlockWorld) (b : Block)
    (hlen : w.blocks.length = w.dimensions.x * w.dimensions.y * w.dimensions.z)
    (hsq : w.dimensions.x = w.dimensions.z)
    (hbound : w.dimensions.x * w.dimensions.y * w.dimensions.z ≤ 2 ^ 32)
    (hx : 0 < w.dimensions.x) (hy : 0 < w.dimensions.y) :
    (w.set_block ⟨w.dimensions.x - 1, w.dimensions.y - 1, w.dimensions.z - 1⟩ b).isSome ∧
    (1 < w.dimensions.y * w.dimensions.z →
      (w.set_block ⟨w.dimensions.x, 0, 0⟩ b).isSome) ∧
    (w.dimensions.y * w.dimensions.z = 1 →
      w.set_block ⟨w.dimensions.x, 0, 0⟩ b = none) := by
  have hz : 0 < w.dimensions.z := hsq ▸ hx
  refine ⟨?_, ?_, ?_⟩
  · obtain ⟨_, hbp⟩ := pos_to_index_sq w ⟨w.dimensions.x - 1, w.dimensions.y - 1,
      w.dimensions.z - 1⟩ hsq hbound
      ⟨Nat.sub_lt hx Nat.one_pos, Nat.sub_lt hy Nat.one_pos, Nat.sub_lt hz Nat.one_pos⟩
    rw [BlockWorld.set_block]
    simp only [if_pos (by omega : BlockWorld.pos_to_index w
      ⟨w.dimensions.x - 1, w.dimensions.y - 1, w.dimensions.z - 1⟩ < w.blocks.length)]
    rfl
  · intro hyz
    have hXlt : w.dimensions.x < 2 ^ 32 := by
      have h2 : w.dimensions.x * 2 ≤ w.dimensions.x * (w.dimensions.y * w.dimensions.z) :=
        Nat.mul_le_mul (le_refl _) hyz

      nlinarith [hbound, hx]
    have hidx : w.pos_to_index ⟨w.dimensions.x, 0, 0⟩ = w.dimensions.x := by
      rw [BlockWorld.pos_to_index, BlockWorld.dims]
      simp only [Nat.zero_mul, Nat.add_zero]
      exact Nat.mod_eq_of_lt hXlt
    have hXlen : w.dimensions.x < w.blocks.length := by
      rw [hlen]
      nlinarith [hx, hyz]
    rw [BlockWorld.set_block]
    simp only [hidx, if_pos hXlen]
    rfl
  · intro hyz
    have hle1 : w.dimensions.y ≤ w.dimensions.y * w.dimensions.z :=
      Nat.le_mul_of_pos_right _ hz
    have hle2 : w.dimensions.z ≤ w.dimensions.y * w.dimensions.z :=
      Nat.le_mul_of_pos_left _ hy
    have hy1 : w.dimensions.y = 1 := by omega
    have hz1 : w.dimensions.z = 1 := by omega
    have hx1 : w.dimensions.x = 1 := hsq.trans hz1
    rw [BlockWorld.set_block]
    rw [if_neg]
    rw [BlockWorld.pos_to_index, BlockWorld.dims, hlen, hx1, hy1, hz1]
    norm_num

/-- C9 witness: the square 2×1×2 world — the corner write succeeds and the
out-of-range `(2, 0, 0)` write is silently accepted. -/
theorem set_block_bounds_square_dims_witness :
    ((BlockWorld.new ⟨2, 1, 2⟩).set_block ⟨1, 0, 1⟩ Block.Stone).isSome ∧
    ((BlockWorld.new ⟨2, 1, 2⟩).set_block ⟨2, 0, 0⟩ Block.Stone).isSome :=
  ⟨(set_block_bounds_square_dims (BlockWorld.new ⟨2, 1, 2⟩) Block.Stone
      (by decide) (by decide) (by decide) (by decide) (by decide)).1,
   (set_block_bounds_square_dims (BlockWorld.new ⟨2, 1, 2⟩) Block.Stone
      (by decide) (by decide) (by decide) (by decide) (by decide)).2.1 (by decide)⟩

/-- Pointwise reading of a successful `mapM` over `Option`: the results line
up one-to-one with the inputs, in order. -/
theorem mapM_some_pointwise {α β : Type} (f : α → Option β) (l : List α) (r : List β)
    (h : l.mapM f = some r) :
    r.length = l.length ∧
    ∀ i (hi : i < l.length) (hi2 : i < r.length),
      f (l.get ⟨i, hi⟩) = some (r.get ⟨i, hi2⟩) := by
  induction l generalizing r with
  | nil =>
    rw [List.mapM_nil] at h
    obtain rfl : ([] : List β) = r := by simpa using h
    exact ⟨rfl, fun i hi => absurd hi (by simp)⟩
  | cons a l ih =>
    rw [List.mapM_cons] at h
    cases hfa : f a with
    | none =>
      rw [hfa] at h
      simp at h
    | some b =>
      rw [hfa] at h
      cases hrest : l.mapM f with
      | none =>
        rw [hrest] at h
        simp at h
      | some bs =>
        rw [hrest] at h
        obtain rfl : b :: bs = r := by simpa using h
        obtain ⟨hlen, hpt⟩ := ih bs hrest
        refine ⟨by simpa using hlen, ?_⟩
        intro i hi hi2
        cases i with
        | zero => simpa using hfa
        | succ i => simpa using hpt i (by simpa using hi) (by simpa using hi2)

/-- C2.  The join handler pushes into the joining session's queue, in this
exact order: `ServerIdent{proto 7, "vintage", "Vintage server", 0x64}`,
`LevelInit`, the level data chunks, `LevelFinalise` with the dimensions, a
`PlayerTeleport{id -1}` at the spawn position and spawn rotation, a
`SpawnPlayer{id -1}` with the client's name at spawn, then one `SpawnPlayer`
per already-joined player with that player's id, name, position and
rotation.  Stated for the spawn location installed by `main` (zero rotation,
exactly what the hard-coded teleport bytes carry). -/
theorem player_join_packet_sequence (entity_id : Nat) (username : List Char)
    (allocator : PlayerIdAllocator) (serialised : List Nat) (dims : UVec3)
    (players : List JoinedPlayer) (pid : Nat) (a2 : PlayerIdAllocator)
    (halloc : allocator.alloc entity_id = some (pid, a2))
    (uname : List Nat) (huser : PacketString.from_str username = some uname)
    (other_packets : List S2CPacket)
    (hothers : players.mapM spawn_packet_for = some other_packets) :
    player_join_handler entity_id username allocator mainSpawnLocation serialised dims
        players =
      some (
        [S2CPacket.serverIdent 7
            (utf8Encode "vintage".data ++ List.replicate 57 32)
            (utf8Encode "Vintage server".data ++ List.replicate 50 32) 0x64,
         S2CPacket.levelInit] ++
        level_chunk_packets serialised ++
        [S2CPacket.levelFinalise (u32_as_i16 dims.x) (u32_as_i16 dims.y) (u32_as_i16 dims.z),
         S2CPacket.playerTeleport (-1)
            (FShort.from_f32 mainSpawnLocation.position.x)
            (FShort.from_f32 mainSpawnLocation.position.y)
            (FShort.from_f32 mainSpawnLocation.position.z)
            (to_angle_byte mainSpawnLocation.yaw) (to_angle_byte mainSpawnLocation.pitch),
         S2CPacket.spawnPlayer (-1) uname
            (FShort.from_f32 mainSpawnLocation.position.x)
            (FShort.from_f32 mainSpawnLocation.position.y)
            (FShort.from_f32 mainSpawnLocation.position.z)
            (to_angle_byte mainSpawnLocation.yaw) (to_angle_byte mainSpawnLocation.pitch)] ++
        other_packets,
        a2, { name := username, id := (pid : Int) },
        mainSpawnLocation.position,
        { pitch := mainSpawnLocation.pitch, yaw := mainSpawnLocation.yaw }) ∧
    other_packets.length = players.length ∧
    (∀ i (hi : i < players.length) (hi2 : i < other_packets.length),
      spawn_packet_for (players.get ⟨i, hi⟩) = some (other_packets.get ⟨i, hi2⟩)) := by
  obtain ⟨hlen, hpt⟩ := mapM_some_pointwise spawn_packet_for players other_packets hothers
  refine ⟨?_, hlen, hpt⟩
  have hvintage : PacketString.from_str "vintage".data =
      some (utf8Encode "vintage".data ++ List.replicate 57 32) := by decide
  have hmotd : PacketString.from_str "Vintage server".data =
      some (utf8Encode "Vintage server".data ++ List.replicate 50 32) := by decide
  have hangle : to_angle_byte 0 = 0 := by
    have h1 : (0 : ℚ) / TAU * 255 = 0 := by simp
    rw [to_angle_byte, h1]
    have h2 : truncQ 0 = 0 := by simp [truncQ]
    rw [h2]
    simp [saturate]
  rw [player_join_handler, halloc, hvintage, hmotd, huser, hothers]
  simp [send_world, mainSpawnLocation, hangle]

/-- C2 witness: a concrete join — username "Alice", a fresh allocator, a
3-byte level stream, the shipped 64×32×64 dimensions and one already-joined
player "Bob". -/
theorem player_join_packet_sequence_witness :
    player_join_handler 7 "Alice".data PlayerIdAllocator.new_empty mainSpawnLocation
        [1, 2, 3] ⟨64, 32, 64⟩
        [{ pos := ⟨1, 2, 3⟩, rot := ⟨0, 0⟩, player := { name := "Bob".data, id := 0 } }] =
      some (
        [S2CPacket.serverIdent 7
            (utf8Encode "vintage".data ++ List.replicate 57 32)
            (utf8Encode "Vintage server".data ++ List.replicate 50 32) 0x64,
         S2CPacket.levelInit] ++
        level_chunk_packets [1, 2, 3] ++
        [S2CPacket.levelFinalise (u32_as_i16 64) (u32_as_i16 32) (u32_as_i16 64),
         S2CPacket.playerTeleport (-1)
            (FShort.from_f32 mainSpawnLocation.position.x)
            (FShort.from_f32 mainSpawnLocation.position.y)
            (FShort.from_f32 mainSpawnLocation.position.z)
            (to_angle_byte mainSpawnLocation.yaw) (to_angle_byte mainSpawnLocation.pitch),
         S2CPacket.spawnPlayer (-1) (utf8Encode "Alice".data ++ List.replicate 59 32)
            (FShort.from_f32 mainSpawnLocation.position.x)
            (FShort.from_f32 mainSpawnLocation.position.y)
            (FShort.from_f32 mainSpawnLocation.position.z)
            (to_angle_byte mainSpawnLocation.yaw) (to_angle_byte mainSpawnLocation.pitch)] ++
        [S2CPacket.spawnPlayer 0 (utf8Encode "Bob".data ++ List.replicate 61 32)
            (FShort.from_f32 1) (FShort.from_f32 2) (FShort.from_f32 3)
            (to_angle_byte 0) (to_angle_byte 0)],
        { occupation := some 7 :: List.replicate 126 none },
        { name := "Alice".data, id := 0 },
        mainSpawnLocation.position, { pitch := 0, yaw := 0 }) :=
  ((player_join_packet_sequence 7 "Alice".data PlayerIdAllocator.new_empty [1, 2, 3]
      ⟨64, 32, 64⟩
      [{ pos := ⟨1, 2, 3⟩, rot := ⟨0, 0⟩, player := { name := "Bob".data, id := 0 } }]
      0 { occupation := some 7 :: List.replicate 126 none } (by decide)
      (utf8Encode "Alice".data ++ List.replicate 59 32) (by decide)
      [S2CPacket.spawnPlayer 0 (utf8Encode "Bob".data ++ List.replicate 61 32)
          (FShort.from_f32 1) (FShort.from_f32 2) (FShort.from_f32 3)
          (to_angle_byte 0) (to_angle_byte 0)] (by rfl)).1)

end Vintage
